import Mathlib

/-
Verification of the pubsub directory in `distributed/pubsub.py`.

The embedding models Python dictionaries (`defaultdict(set)` and friends) as
association lists, keeping the observable Python semantics:
* a `defaultdict` subscript access creates an empty entry when the key is
  absent (`touch` below),
* `set.remove` and `del dict[key]` raise `KeyError` when the key/element is
  absent; this is modelled by an `Option PyErr` result, with the state at the
  raise point preserved (Python mutations before the raise persist),
* `set.add` and dict assignment never raise.

Topic names, worker addresses, client identities and message payloads are all
opaque serializable keys in the source; they are modelled as `String`.
Iteration order over Python sets is unspecified; the list order used here is a
determinization of it.
-/

abbrev K := String

inductive PyErr
| keyError
deriving DecidableEq

/-- Python `set.add`: insert if absent, keep otherwise. -/
def addElem (l : List K) (v : K) : List K :=
if v ∈ l then l else l ++ [v]

/-- A Python dict as an association list (insertion ordered, keys unique in
all states the code builds). -/
structure PyDict (α : Type) where
entries : List (K × α)
deriving DecidableEq

namespace PyDict

def findE : List (K × α) → K → Option α
| [], _ => none
| (k', v) :: es, k => if k' = k then some v else findE es k

def find? (d : PyDict α) (k : K) : Option α := findE d.entries k

def getD (d : PyDict α) (k : K) (dv : α) : α := (d.find? k).getD dv

def contains (d : PyDict α) (k : K) : Bool := (d.find? k).isSome

/-- `defaultdict` subscript access: create the entry with the default value
when the key is absent. -/
def touch (d : PyDict α) (k : K) (dv : α) : PyDict α :=
if d.contains k then d else ⟨d.entries ++ [(k, dv)]⟩

def setE : List (K × α) → K → α → List (K × α)
| [], k, v => [(k, v)]
| (k', v') :: es, k, v => if k' = k then (k, v) :: es else (k', v') :: setE es k v

/-- Dict assignment `d[k] = v`. -/
def set (d : PyDict α) (k : K) (v : α) : PyDict α := ⟨setE d.entries k v⟩

def eraseE : List (K × α) → K → List (K × α)
| [], _ => []
| (k', v') :: es, k => if k' = k then eraseE es k else (k', v') :: eraseE es k

/-- `del d[k]` (keys are unique in every state the code builds, so removing
all matches is the same as removing the one entry). -/
def erase (d : PyDict α) (k : K) : PyDict α := ⟨eraseE d.entries k⟩

/-- `d[k].add v` / `d[k] = f d[k]` on a `defaultdict`: the subscript creates
the entry, then the value is updated in place. -/
def modifyD (d : PyDict α) (k : K) (dv : α) (f : α → α) : PyDict α :=
(d.touch k dv).set k (f (d.getD k dv))

def empty : PyDict α := ⟨[]⟩

end PyDict

/-- `PubSubSchedulerExtension` tables: `publishers`, `subscribers`,
`client_subscribers`, each a `defaultdict(set)` keyed by topic name. -/
structure SchedState where
publishers : PyDict (List K)
subscribers : PyDict (List K)
client_subscribers : PyDict (List K)
deriving DecidableEq

def SchedState.empty : SchedState := ⟨PyDict.empty, PyDict.empty, PyDict.empty⟩

/-- Messages the scheduler sends out: `worker_send` events to publisher
workers, and `pubsub-msg` relays to client / worker streams. -/
inductive SMsg
| addSubscriber (dest name address : K)
| removeSubscriber (dest name address : K)
| publishScheduler (dest name : K) (publish : Bool)
| msgToClient (c name msg : K)
| msgToWorker (w name msg : K)
deriving DecidableEq

structure SchedRes where
state : SchedState
sends : List SMsg
err : Option PyErr
deriving DecidableEq

abbrev Info := Unit

/-- Result of the `pubsub_add_publisher` request: the snapshot dict
`(addr : empty info)` for each worker subscriber, and the
`publish-scheduler` flag. -/
structure AddPubRes where
state : SchedState
subsSnapshot : List (K × Info)
publishScheduler : Bool
err : Option PyErr
deriving DecidableEq

namespace PubSubSchedulerExtension

/-- `add_publisher`: `self.publishers[name].add(worker)`, then return the
snapshot built from `self.subscribers[name]` (a `defaultdict` access, so it
creates the entry) and the flag
`name in self.client_subscribers and len(self.client_subscribers[name]) > 0`. -/
def add_publisher (s : SchedState) (name worker : K) : AddPubRes :=
let P := s.publishers.modifyD name [] (fun l => addElem l worker)
let S := s.subscribers.touch name []
{ state := { s with publishers := P, subscribers := S },
  subsSnapshot := (S.getD name []).map (fun a => (a, ())),
  publishScheduler :=
    s.client_subscribers.contains name
      && decide (0 < (s.client_subscribers.getD name []).length),
  err := none }

/-- `add_subscriber`: worker branch inserts into `subscribers[name]` and
notifies every publisher; client branch notifies every publisher with
`publish=True` and inserts into `client_subscribers[name]`.  The publisher
loops are `defaultdict` accesses and create `publishers[name]`. -/
def add_subscriber (s : SchedState) (name : K) (worker client : Option K) :
    SchedRes :=
match worker with
| some w =>
  let S := s.subscribers.modifyD name [] (fun l => addElem l w)
  let P := s.publishers.touch name []
  { state := { s with subscribers := S, publishers := P },
    sends := (P.getD name []).map (fun p => SMsg.addSubscriber p name w),
    err := none }
| none =>
  match client with
  | some c =>
    let P := s.publishers.touch name []
    let CS := s.client_subscribers.modifyD name [] (fun l => addElem l c)
    { state := { s with publishers := P, client_subscribers := CS },
      sends := (P.getD name []).map (fun p => SMsg.publishScheduler p name true),
      err := none }
  | none => { state := s, sends := [], err := none }

/-- The trailing `if not self.subscribers[name] and not self.publishers[name]:
del ...` check of `remove_subscriber` (the `and` short-circuits, so
`publishers[name]` is only touched when `subscribers[name]` is empty). -/
def removeTopicIfEmpty (s : SchedState) (name : K) (sends : List SMsg) :
    SchedRes :=
let S := s.subscribers.touch name []
if (S.getD name []).isEmpty then
  let P := s.publishers.touch name []
  if (P.getD name []).isEmpty then
    { state := { s with subscribers := S.erase name, publishers := P.erase name },
      sends := sends, err := none }
  else
    { state := { s with subscribers := S, publishers := P }, sends := sends,
      err := none }
else
  { state := { s with subscribers := S }, sends := sends, err := none }

/-- `remove_publisher`: guarded by `if worker in self.publishers[name]`
(a `defaultdict` access, creating the entry); when present, remove and run
the topic-deletion check; when absent, nothing else happens. -/
def remove_publisher (s : SchedState) (name worker : K) : SchedRes :=
let P0 := s.publishers.touch name []
if worker ∈ P0.getD name [] then
  let P1 := P0.set name ((P0.getD name []).erase worker)
  let S1 := s.subscribers.touch name []
  if (S1.getD name []).isEmpty && (P1.getD name []).isEmpty then
    { state := { s with publishers := P1.erase name, subscribers := S1.erase name },
      sends := [], err := none }
  else
    { state := { s with publishers := P1, subscribers := S1 }, sends := [],
      err := none }
else
  { state := { s with publishers := P0 }, sends := [], err := none }

/-- `remove_subscriber`: the worker branch does
`self.subscribers[name].remove(worker)` (KeyError when absent) and notifies
publishers; the client branch does `self.client_subscribers[name].remove(client)`
(KeyError when absent), deletes the entry when it empties and turns the
scheduler copy off at every publisher; then the unconditional topic-deletion
check runs. -/
def remove_subscriber (s : SchedState) (name : K) (worker client : Option K) :
    SchedRes :=
match worker with
| some w =>
  let S0 := s.subscribers.touch name []
  if w ∈ S0.getD name [] then
    let S1 := S0.set name ((S0.getD name []).erase w)
    let P1 := s.publishers.touch name []
    removeTopicIfEmpty { s with subscribers := S1, publishers := P1 } name
      ((P1.getD name []).map (fun p => SMsg.removeSubscriber p name w))
  else
    { state := { s with subscribers := S0 }, sends := [], err := some PyErr.keyError }
| none =>
  match client with
  | some c =>
    let CS0 := s.client_subscribers.touch name []
    if c ∈ CS0.getD name [] then
      let l1 := (CS0.getD name []).erase c
      if l1.isEmpty then
        let P1 := s.publishers.touch name []
        removeTopicIfEmpty
          { s with client_subscribers := (CS0.set name l1).erase name,
                   publishers := P1 } name
          ((P1.getD name []).map (fun p => SMsg.publishScheduler p name false))
      else
        removeTopicIfEmpty { s with client_subscribers := CS0.set name l1 } name []
    else
      { state := { s with client_subscribers := CS0 }, sends := [],
        err := some PyErr.keyError }
  | none => removeTopicIfEmpty s name []

/-- The client fan-out loop of `handle_message`:
`for c in list(self.client_subscribers[name])`, sending to each client and
converting a failed send (`KeyError` on `client_comms[c]` or
`CommClosedError`, modelled by the environment predicate `failing`) into
`self.remove_subscriber(name=name, client=c)`.  An exception from that call
would propagate and abort the loop. -/
def fanoutClients (name msg : K) (failing : K → Bool) :
    SchedState → List K → SchedRes
| s, [] => { state := s, sends := [], err := none }
| s, c :: cs =>
  if failing c then
    let r := remove_subscriber s name none (some c)
    match r.err with
    | some e => { state := r.state, sends := r.sends, err := some e }
    | none =>
      let rest := fanoutClients name msg failing r.state cs
      { state := rest.state, sends := r.sends ++ rest.sends, err := rest.err }
  else
    let rest := fanoutClients name msg failing s cs
    { state := rest.state, sends := SMsg.msgToClient c name msg :: rest.sends,
      err := rest.err }

/-- `handle_message(name, msg, worker=None, client=None)`: relay to every
client subscriber (converting failed sends into removals), then, when the
source was a client, relay to every worker subscriber
(`for sub in self.subscribers[name]`, a `defaultdict` access). -/
def handle_message (s : SchedState) (name msg : K) (sourceIsClient : Bool)
    (failing : K → Bool) : SchedRes :=
let CS := s.client_subscribers.touch name []
let snap := CS.getD name []
let r := fanoutClients name msg failing { s with client_subscribers := CS } snap
match r.err with
| some e => { state := r.state, sends := r.sends, err := some e }
| none =>
  if sourceIsClient then
    let S := r.state.subscribers.touch name []
    { state := { r.state with subscribers := S },
      sends := r.sends ++ (S.getD name []).map (fun w => SMsg.msgToWorker w name msg),
      err := none }
  else
    { state := r.state, sends := r.sends, err := none }

end PubSubSchedulerExtension

/-- The scheduler states reachable from the empty initial state by the five
scheduler operations (including ones that raise: the mutations made before a
`KeyError` persist, as in Python). -/
inductive Reachable : SchedState → Prop
| empty : Reachable SchedState.empty
| addPub (s : SchedState) (n w : K) : Reachable s →
    Reachable (PubSubSchedulerExtension.add_publisher s n w).state
| addSub (s : SchedState) (n : K) (wo co : Option K) : Reachable s →
    Reachable (PubSubSchedulerExtension.add_subscriber s n wo co).state
| remPub (s : SchedState) (n w : K) : Reachable s →
    Reachable (PubSubSchedulerExtension.remove_publisher s n w).state
| remSub (s : SchedState) (n : K) (wo co : Option K) : Reachable s →
    Reachable (PubSubSchedulerExtension.remove_subscriber s n wo co).state
| msg (s : SchedState) (n m : K) (src : Bool) (fl : K → Bool) : Reachable s →
    Reachable (PubSubSchedulerExtension.handle_message s n m src fl).state

/-- A worker-local `Pub` object as seen by `PubSubWorkerExtension`: only its
`subscribers` dict (worker address to empty info payload; modelled by the
address set) is touched by the extension. -/
structure PubEntry where
subscribers : List K
deriving DecidableEq

namespace PubSubWorkerExtension

/-- `add_subscriber`: `for pub in self.publishers[name]: pub.subscribers[address] = info`
(a dict assignment, never raises). -/
def add_subscriber (pubs : PyDict (List PubEntry)) (name address : K) :
    PyDict (List PubEntry) :=
pubs.modifyD name []
  (fun l => l.map (fun p => PubEntry.mk (addElem p.subscribers address)))

/-- One pass of `del pub.subscribers[address]` over the local publishers:
`KeyError` at the first publisher missing the address; earlier publishers
stay mutated. -/
def delAddr : List PubEntry → K → List PubEntry × Option PyErr
| [], _ => ([], none)
| p :: ps, a =>
  if a ∈ p.subscribers then
    let r := delAddr ps a
    (PubEntry.mk (p.subscribers.erase a) :: r.1, r.2)
  else (p :: ps, some PyErr.keyError)

/-- `remove_subscriber`: `for pub in self.publishers[name]: del pub.subscribers[address]`. -/
def remove_subscriber (pubs : PyDict (List PubEntry)) (name address : K) :
    PyDict (List PubEntry) × Option PyErr :=
let r := delAddr (pubs.getD name []) address
((pubs.touch name []).set name r.1, r.2)

end PubSubWorkerExtension

/-- A `Sub` endpoint's consumable state: its message buffer (the wait
condition is modelled separately in the `get` trace semantics below). -/
structure SubSt where
buffer : List K
deriving DecidableEq

namespace Sub

/-- `Sub._put`: append to the buffer and notify the condition. -/
def _put (b : SubSt) (msg : K) : SubSt := SubSt.mk (b.buffer ++ [msg])

end Sub

/-- The stream-handler op names `PubSubSchedulerExtension.__init__` registers
with the scheduler. -/
def schedulerStreamHandlerOps : List K :=
["pubsub-add-subscriber", "pubsub-remove-publisher",
 "pubsub-remove-subscriber", "pubsub-msg"]

/-- The request-handler op names `PubSubSchedulerExtension.__init__` registers
with the scheduler. -/
def schedulerRequestHandlerOps : List K := ["pubsub_add_publisher"]

namespace PubSubClientExtension

/-- `PubSubClientExtension.handle_message`: deliver `msg` to each local
subscriber for `name`; when the (weak) subscriber set for `name` is empty,
send the event with op `"pubsub-remove-subscribers"` to the scheduler.
`subs` is the content of `self.subscribers[name]`; the returned events are
pairs of op name and topic name. -/
def handle_message (subs : List SubSt) (name msg : K) :
    List SubSt × List (K × K) :=
(subs.map (fun sub => Sub._put sub msg),
 if subs.isEmpty then [("pubsub-remove-subscribers", name)] else [])

end PubSubClientExtension

/-- Where a `Pub` endpoint lives (`self.worker` vs `self.client`; exactly one
is set). -/
inductive Host
| worker
| client
deriving DecidableEq

/-- Outgoing traffic of a `Pub`: the `pubsub_add_publisher` RPC issued by
`_start`, direct worker-to-worker sends (`self.worker.send_to_worker`), and
scheduler-stream sends (`batched_stream.send` / `scheduler_comm.send`), each
carrying the pubsub-msg event fields. -/
inductive PubSend
| rpcAddPublisher (name : K)
| direct (addr name msg : K)
| sched (name msg : K)
deriving DecidableEq

/-- A `Pub` endpoint.  `pts` models the worker extension's
`publish_to_scheduler[self.name]` entry that `_put` reads at send time
(`defaultdict(lambda: False)`, so initially `false`). -/
structure PubSt where
host : Host
name : K
started : Bool
buffer : List K
subscribers : List K
pts : Bool
deriving DecidableEq

namespace Pub

/-- `Pub.__init__` state: not started, empty buffer, empty subscribers dict. -/
def init (host : Host) (name : K) : PubSt :=
{ host := host, name := name, started := false, buffer := [],
  subscribers := [], pts := false }

/-- `Pub._put`: buffer when not started; otherwise send the pubsub-msg event
on `Direct` to each subscriber address plus, when `publish_to_scheduler[name]`,
on the scheduler stream (worker host), or on the scheduler stream only
(client host). -/
def _put (p : PubSt) (msg : K) : PubSt × List PubSend :=
if p.started = false then
  ({ p with buffer := p.buffer ++ [msg] }, [])
else
  match p.host with
  | Host.worker =>
    (p, p.subscribers.map (fun a => PubSend.direct a p.name msg)
        ++ (if p.pts then [PubSend.sched p.name msg] else []))
  | Host.client => (p, [PubSend.sched p.name msg])

/-- A sequence of `put` calls, in order (each `put` schedules one `_put` on
the single-threaded loop). -/
def putMany (p : PubSt) (msgs : List K) : PubSt × List PubSend :=
match msgs with
| [] => (p, [])
| m :: ms =>
  let r1 := _put p m
  let r2 := putMany r1.1 ms
  (r2.1, r1.2 ++ r2.2)

/-- `Pub._start`: on a worker host, await the `pubsub_add_publisher` RPC
(`regSubs`, `regFlag` are the response fields), update `self.subscribers` and
`publish_to_scheduler[name]`, set `_started`, then re-`put` every buffered
message in order and clear the buffer.  On a client host there is no
scheduler call: just set `_started` and flush. -/
def _start (p : PubSt) (regSubs : List K) (regFlag : Bool) :
    PubSt × List PubSend :=
match p.host with
| Host.worker =>
  let p1 : PubSt :=
    { p with subscribers := regSubs.foldl addElem p.subscribers,
             pts := regFlag, started := true, buffer := [] }
  let r := putMany p1 p.buffer
  (r.1, PubSend.rpcAddPublisher p.name :: r.2)
| Host.client =>
  let p1 : PubSt := { p with started := true, buffer := [] }
  let r := putMany p1 p.buffer
  (r.1, r.2)

/-- The operations user code and the event loop can apply to one `Pub`. -/
inductive Op
| start (regSubs : List K) (regFlag : Bool)
| put (m : K)

def step (p : PubSt) : Op → PubSt × List PubSend
| Op.start rs rf => _start p rs rf
| Op.put m => _put p m

def run (p : PubSt) : List Op → PubSt × List PubSend
| [] => (p, [])
| o :: os =>
  let r1 := step p o
  let r2 := run r1.1 os
  (r2.1, r1.2 ++ r2.2)

end Pub

/-- Outcome of `Sub._get`: a popped message with the remaining buffer, a
`TimeoutError`, or still blocked when the wake trace runs out. -/
inductive GetOutcome
| got (msg : K) (buffer : List K)
| timedOut
| stillWaiting
deriving DecidableEq

namespace Sub

/-- The `while not self.buffer` loop of `Sub._get`, driven by a trace of wake
events: each wake is the time the waiter resumes and the buffer content it
observes then.  At each loop top with an empty buffer: when a timeout is set,
`timeout2 = timeout - (now - start)` and a negative value raises
`TimeoutError`; the `asyncio.wait_for` around the condition raises
`TimeoutError` when the next wake would come after `start + timeout`.
A `none` timeout waits without a deadline. -/
def getLoop (timeout : Option Int) (start : Int) :
    Int → List K → List (Int × List K) → GetOutcome
| _, m :: rest, _ => GetOutcome.got m rest
| now, [], wakes =>
  match timeout with
  | some t =>
    if t - (now - start) < 0 then GetOutcome.timedOut
    else
      match wakes with
      | [] => GetOutcome.stillWaiting
      | (t', b') :: ws =>
        if start + t < t' then GetOutcome.timedOut
        else getLoop timeout start t' b' ws
  | none =>
    match wakes with
    | [] => GetOutcome.stillWaiting
    | (t', b') :: ws => getLoop timeout start t' b' ws

/-- `Sub._get(timeout)`: `start = time()`, then the wait loop. -/
def _get (timeout : Option Int) (start : Int) (buffer : List K)
    (wakes : List (Int × List K)) : GetOutcome :=
getLoop timeout start start buffer wakes

end Sub

/-- The clients a scheduler send list actually delivers a pubsub-msg to. -/
def clientMsgTargets : List SMsg → List K
| [] => []
| SMsg.msgToClient c _ _ :: r => c :: clientMsgTargets r
| _ :: r => clientMsgTargets r

/-- The workers a scheduler send list delivers a pubsub-msg to. -/
def workerMsgTargets : List SMsg → List K
| [] => []
| SMsg.msgToWorker w _ _ :: r => w :: workerMsgTargets r
| _ :: r => workerMsgTargets r

/-- Applying `remove_subscriber(name, client=c)` once per listed client, in
order (the state effect the spec assigns to failed client sends). -/
def applyRemovals (name : K) : SchedState → List K → SchedState
| s, [] => s
| s, c :: cs =>
  applyRemovals name
    (PubSubSchedulerExtension.remove_subscriber s name none (some c)).state cs

/-! ### Basic facts about the Python dict model -/

theorem addElem_mem_self (l : List K) (v : K) : v ∈ addElem l v := by
unfold addElem
split
· assumption
· exact List.mem_append_right _ (List.mem_singleton.mpr rfl)

theorem addElem_of_mem {l : List K} {v : K} (h : v ∈ l) : addElem l v = l := by
unfold addElem
simp [h]

namespace PyDict

theorem findE_setE_self (es : List (K × α)) (k : K) (v : α) :
    findE (setE es k v) k = some v := by
induction es with
| nil => simp [setE, findE]
| cons e es ih =>
  obtain ⟨k', v'⟩ := e
  by_cases h : k' = k
  · simp [setE, h, findE]
  · simp [setE, h, findE, ih]

theorem findE_setE_ne (es : List (K × α)) {k k' : K} (v : α) (h : k' ≠ k) :
    findE (setE es k v) k' = findE es k' := by
have h' : ¬ (k = k') := fun hh => h hh.symm
induction es with
| nil => simp [setE, findE, h']
| cons e es ih =>
  obtain ⟨k₀, v₀⟩ := e
  by_cases h0 : k₀ = k
  · subst h0
    simp [setE, findE, h']
  · simp [setE, h0, findE, ih]

theorem findE_eraseE_self (es : List (K × α)) (k : K) :
    findE (eraseE es k) k = none := by
induction es with
| nil => simp [eraseE, findE]
| cons e es ih =>
  obtain ⟨k₀, v₀⟩ := e
  by_cases h0 : k₀ = k
  · simp [eraseE, h0, ih]
  · simp [eraseE, h0, findE, ih]

theorem findE_eraseE_ne (es : List (K × α)) {k k' : K} (h : k' ≠ k) :
    findE (eraseE es k) k' = findE es k' := by
have h' : ¬ (k = k') := fun hh => h hh.symm
induction es with
| nil => simp [eraseE]
| cons e es ih =>
  obtain ⟨k₀, v₀⟩ := e
  by_cases h0 : k₀ = k
  · subst h0
    simp [eraseE, findE, ih, h']
  · simp [eraseE, h0, findE, ih]

theorem findE_append (es es' : List (K × α)) (k : K) :
    findE (es ++ es') k = (findE es k).orElse (fun _ => findE es' k) := by
induction es with
| nil => simp [findE]
| cons e es ih =>
  obtain ⟨k₀, v₀⟩ := e
  by_cases h0 : k₀ = k
  · simp [findE, h0]
  · simp [findE, h0, ih]

theorem getD_touch (d : PyDict α) (k k' : K) (dv : α) :
    (d.touch k dv).getD k' dv = d.getD k' dv := by
unfold touch
split
· rfl
· unfold getD find?
  rw [findE_append]
  cases h : findE d.entries k'
  · simp [findE]
    split <;> rfl
  · simp

theorem contains_touch_self (d : PyDict α) (k : K) (dv : α) :
    (d.touch k dv).contains k = true := by
unfold touch
split
· assumption
· unfold contains find?
  rw [findE_append]
  cases h : findE d.entries k
  · simp [findE]
  · simp

theorem touch_of_contains {d : PyDict α} {k : K} (dv : α)
    (h : d.contains k = true) : d.touch k dv = d := by
unfold touch
simp [h]

theorem getD_set_self (d : PyDict α) (k : K) (v dv : α) :
    (d.set k v).getD k dv = v := by
unfold getD set find?
simp [findE_setE_self]

theorem find?_set_ne (d : PyDict α) {k k' : K} (v : α) (h : k' ≠ k) :
    (d.set k v).find? k' = d.find? k' := by
unfold set find?
exact findE_setE_ne _ _ h

theorem getD_set_ne (d : PyDict α) {k k' : K} (v dv : α) (h : k' ≠ k) :
    (d.set k v).getD k' dv = d.getD k' dv := by
unfold getD
rw [find?_set_ne _ _ h]

theorem contains_set_self (d : PyDict α) (k : K) (v : α) :
    (d.set k v).contains k = true := by
unfold contains set find?
simp [findE_setE_self]

theorem contains_set_ne (d : PyDict α) {k k' : K} (v : α) (h : k' ≠ k) :
    (d.set k v).contains k' = d.contains k' := by
unfold contains
rw [find?_set_ne _ _ h]

theorem setE_setE (es : List (K × α)) (k : K) (v w : α) :
    setE (setE es k v) k w = setE es k w := by
induction es with
| nil => simp [setE]
| cons e es ih =>
  obtain ⟨k₀, v₀⟩ := e
  by_cases h0 : k₀ = k
  · simp [setE, h0]
  · simp [setE, h0, ih]

theorem set_set (d : PyDict α) (k : K) (v w : α) :
    (d.set k v).set k w = d.set k w := by
unfold set
simp [setE_setE]

theorem contains_erase_self (d : PyDict α) (k : K) :
    (d.erase k).contains k = false := by
unfold contains erase find?
simp [findE_eraseE_self]

theorem getD_erase_self (d : PyDict α) (k : K) (dv : α) :
    (d.erase k).getD k dv = dv := by
unfold getD erase find?
simp [findE_eraseE_self]

theorem find?_erase_ne (d : PyDict α) {k k' : K} (h : k' ≠ k) :
    (d.erase k).find? k' = d.find? k' := by
unfold erase find?
exact findE_eraseE_ne _ h

theorem getD_erase_ne (d : PyDict α) {k k' : K} (dv : α) (h : k' ≠ k) :
    (d.erase k).getD k' dv = d.getD k' dv := by
unfold getD
rw [find?_erase_ne _ h]

theorem contains_of_getD_ne {d : PyDict α} {k : K} {dv : α}
    (h : d.getD k dv ≠ dv) : d.contains k = true := by
unfold getD at h
unfold contains
cases hf : d.find? k
· rw [hf] at h
  simp at h
· simp [hf]

theorem getD_modifyD_self (d : PyDict α) (k : K) (dv : α) (f : α → α) :
    (d.modifyD k dv f).getD k dv = f (d.getD k dv) := by
unfold modifyD
exact getD_set_self _ _ _ _

theorem getD_modifyD_ne (d : PyDict α) {k k' : K} (dv : α) (f : α → α)
    (h : k' ≠ k) : (d.modifyD k dv f).getD k' dv = d.getD k' dv := by
unfold modifyD
rw [getD_set_ne _ _ _ h, getD_touch]

theorem contains_modifyD_self (d : PyDict α) (k : K) (dv : α) (f : α → α) :
    (d.modifyD k dv f).contains k = true := by
unfold modifyD
exact contains_set_self _ _ _

end PyDict

/-! ### The topic-deletion check -/

namespace PubSubSchedulerExtension

theorem rtie_err (s : SchedState) (n : K) (sends : List SMsg) :
    (removeTopicIfEmpty s n sends).err = none := by
simp only [removeTopicIfEmpty]
split
· split <;> rfl
· rfl

theorem rtie_sends (s : SchedState) (n : K) (sends : List SMsg) :
    (removeTopicIfEmpty s n sends).sends = sends := by
simp only [removeTopicIfEmpty]
split
· split <;> rfl
· rfl

theorem rtie_cs (s : SchedState) (n : K) (sends : List SMsg) :
    (removeTopicIfEmpty s n sends).state.client_subscribers
      = s.client_subscribers := by
simp only [removeTopicIfEmpty]
split
· split <;> rfl
· rfl

theorem rtie_subsD (s : SchedState) (n : K) (sends : List SMsg) (k : K) :
    (removeTopicIfEmpty s n sends).state.subscribers.getD k []
      = s.subscribers.getD k [] := by
simp only [removeTopicIfEmpty]
split
· rename_i hS
  split
  · by_cases hk : k = n
    · subst hk
      rw [List.isEmpty_iff] at hS
      simp only [PyDict.getD_erase_self]
      rw [PyDict.getD_touch] at hS
      exact hS.symm
    · simp only [PyDict.getD_erase_ne _ _ hk, PyDict.getD_touch]
  · simp only [PyDict.getD_touch]
· simp only [PyDict.getD_touch]

theorem rtie_pubsD (s : SchedState) (n : K) (sends : List SMsg) (k : K) :
    (removeTopicIfEmpty s n sends).state.publishers.getD k []
      = s.publishers.getD k [] := by
simp only [removeTopicIfEmpty]
split
· split
  · rename_i hP
    by_cases hk : k = n
    · subst hk
      rw [List.isEmpty_iff] at hP
      simp only [PyDict.getD_erase_self]
      rw [PyDict.getD_touch] at hP
      exact hP.symm
    · simp only [PyDict.getD_erase_ne _ _ hk, PyDict.getD_touch]
  · simp only [PyDict.getD_touch]
· rfl

theorem rtie_post (s : SchedState) (n : K) (sends : List SMsg) :
    (removeTopicIfEmpty s n sends).state.subscribers.getD n [] = [] →
    (removeTopicIfEmpty s n sends).state.publishers.getD n [] = [] →
    (removeTopicIfEmpty s n sends).state.subscribers.contains n = false ∧
    (removeTopicIfEmpty s n sends).state.publishers.contains n = false := by
simp only [removeTopicIfEmpty]
split
· split
  · intro _ _
    exact ⟨PyDict.contains_erase_self _ _, PyDict.contains_erase_self _ _⟩
  · rename_i hP
    intro _ h2
    rw [h2] at hP
    simp at hP
· rename_i hS
  intro h1 _
  rw [h1] at hS
  simp at hS

end PubSubSchedulerExtension

/-! ### Send-target bookkeeping -/

theorem clientMsgTargets_append (a b : List SMsg) :
    clientMsgTargets (a ++ b) = clientMsgTargets a ++ clientMsgTargets b := by
induction a with
| nil => rfl
| cons x xs ih => cases x <;> simp [clientMsgTargets, ih]

theorem workerMsgTargets_append (a b : List SMsg) :
    workerMsgTargets (a ++ b) = workerMsgTargets a ++ workerMsgTargets b := by
induction a with
| nil => rfl
| cons x xs ih => cases x <;> simp [workerMsgTargets, ih]

theorem clientMsgTargets_publishScheduler (l : List K) (n : K) (b : Bool) :
    clientMsgTargets (l.map (fun p => SMsg.publishScheduler p n b)) = [] := by
induction l with
| nil => rfl
| cons x xs ih => simp [clientMsgTargets, ih]

theorem workerMsgTargets_publishScheduler (l : List K) (n : K) (b : Bool) :
    workerMsgTargets (l.map (fun p => SMsg.publishScheduler p n b)) = [] := by
induction l with
| nil => rfl
| cons x xs ih => simp [workerMsgTargets, ih]

theorem clientMsgTargets_msgToWorker (l : List K) (n m : K) :
    clientMsgTargets (l.map (fun w => SMsg.msgToWorker w n m)) = [] := by
induction l with
| nil => rfl
| cons x xs ih => simp [clientMsgTargets, ih]

theorem workerMsgTargets_msgToWorker (l : List K) (n m : K) :
    workerMsgTargets (l.map (fun w => SMsg.msgToWorker w n m)) = l := by
induction l with
| nil => rfl
| cons x xs ih => simp [workerMsgTargets, ih]

namespace PubSubSchedulerExtension

/-- A successful client removal: no error, the client leaves
`client_subscribers[name]`, the worker-subscriber and publisher sets keep
their contents, and no pubsub-msg is sent. -/
theorem remove_subscriber_client_ok (s : SchedState) (n c : K)
    (h : c ∈ s.client_subscribers.getD n []) :
    (remove_subscriber s n none (some c)).err = none ∧
    (remove_subscriber s n none (some c)).state.client_subscribers.getD n []
      = (s.client_subscribers.getD n []).erase c ∧
    (∀ k, (remove_subscriber s n none (some c)).state.subscribers.getD k []
      = s.subscribers.getD k []) ∧
    (∀ k, (remove_subscriber s n none (some c)).state.publishers.getD k []
      = s.publishers.getD k []) ∧
    clientMsgTargets (remove_subscriber s n none (some c)).sends = [] ∧
    workerMsgTargets (remove_subscriber s n none (some c)).sends = [] := by
have hc : c ∈ (s.client_subscribers.touch n []).getD n [] := by
  rw [PyDict.getD_touch]
  exact h
simp only [remove_subscriber, hc, if_pos]
split
· rename_i hl
  rw [List.isEmpty_iff] at hl
  refine ⟨rtie_err _ _ _, ?_, ?_, ?_, ?_, ?_⟩
  · rw [rtie_cs]
    simp only [PyDict.getD_erase_self]
    rw [PyDict.getD_touch] at hl
    exact hl.symm
  · intro k
    rw [rtie_subsD]
  · intro k
    rw [rtie_pubsD]
    simp only [PyDict.getD_touch]
  · rw [rtie_sends, clientMsgTargets_publishScheduler]
  · rw [rtie_sends, workerMsgTargets_publishScheduler]
· refine ⟨rtie_err _ _ _, ?_, ?_, ?_, ?_, ?_⟩
  · rw [rtie_cs]
    simp only [PyDict.getD_set_self]
    rw [PyDict.getD_touch]
  · intro k
    rw [rtie_subsD]
  · intro k
    rw [rtie_pubsD]
  · rw [rtie_sends]
    rfl
  · rw [rtie_sends]
    rfl

end PubSubSchedulerExtension

namespace PubSubSchedulerExtension

/-- The client fan-out loop never raises (distinct clients in the snapshot
stay present until their own removal), its state effect is exactly one
`remove_subscriber(name, client=c)` per failed client in order, it delivers
the message to exactly the non-failing snapshot clients, and it never touches
the worker-subscriber set contents. -/
theorem fanout_spec (name msg : K) (failing : K → Bool) :
    ∀ (snap : List K) (s : SchedState), snap.Nodup →
    (∀ c ∈ snap, c ∈ s.client_subscribers.getD name []) →
    (fanoutClients name msg failing s snap).err = none ∧
    (fanoutClients name msg failing s snap).state
      = applyRemovals name s (snap.filter (fun c => failing c)) ∧
    clientMsgTargets (fanoutClients name msg failing s snap).sends
      = snap.filter (fun c => !failing c) ∧
    workerMsgTargets (fanoutClients name msg failing s snap).sends = [] ∧
    (∀ k, (fanoutClients name msg failing s snap).state.subscribers.getD k []
      = s.subscribers.getD k []) := by
intro snap
induction snap with
| nil =>
  intro s _ _
  exact ⟨rfl, rfl, rfl, rfl, fun k => rfl⟩
| cons c cs ih =>
  intro s hnd hsub
  have hndc : c ∉ cs := (List.nodup_cons.mp hnd).1
  have hnd' : cs.Nodup := (List.nodup_cons.mp hnd).2
  have hcmem : c ∈ s.client_subscribers.getD name [] :=
    hsub c (List.mem_cons_self c cs)
  cases hf : failing c with
  | true =>
    obtain ⟨he, hcs, hsubs, _hpubs, hct, hwt⟩ :=
      remove_subscriber_client_ok s name c hcmem
    have hsub' : ∀ c' ∈ cs,
        c' ∈ (remove_subscriber s name none (some c)).state.client_subscribers.getD
          name [] := by
      intro c' hc'
      rw [hcs]
      have hne : c' ≠ c := fun hh => hndc (hh ▸ hc')
      exact (List.mem_erase_of_ne hne).mpr
        (hsub c' (List.mem_cons_of_mem _ hc'))
    obtain ⟨ihe, ihst, ihct, ihwt, ihsubs⟩ :=
      ih (remove_subscriber s name none (some c)).state hnd' hsub'
    simp only [fanoutClients, hf, if_pos, he]
    refine ⟨ihe, ?_, ?_, ?_, ?_⟩
    · rw [ihst]
      simp [List.filter_cons, hf, applyRemovals]
    · rw [clientMsgTargets_append, hct, ihct]
      simp [List.filter_cons, hf]
    · rw [workerMsgTargets_append, hwt, ihwt]
      rfl
    · intro k
      rw [ihsubs k, hsubs k]
  | false =>
    obtain ⟨ihe, ihst, ihct, ihwt, ihsubs⟩ := ih s hnd'
      (fun c' hc' => hsub c' (List.mem_cons_of_mem _ hc'))
    simp only [fanoutClients, hf]
    refine ⟨ihe, ?_, ?_, ?_, ?_⟩
    · rw [ihst]
      simp [List.filter_cons, hf]
    · simp only [clientMsgTargets, ihct]
      simp [List.filter_cons, hf]
    · simp only [workerMsgTargets, ihwt]
    · exact ihsubs

end PubSubSchedulerExtension

open PubSubSchedulerExtension

/-- C7: for every scheduler state (with the well-formedness Python sets
guarantee: no duplicate clients in `client_subscribers[name]`) and every
`pubsub-msg(name, msg, source)` event, `handle_message` never raises, sends
the message on the stream of exactly the clients in
`client_subscribers[name]` whose stream still works, converts each failed
client send into `remove_subscriber(name, client=c)` (the final state is the
composition of those removals, plus the `defaultdict` accesses the handler
performs), and additionally sends the message to every worker in
`subscribers[name]` iff the source was a client. -/
theorem C7_handle_message_spec (s : SchedState) (name msg : K)
    (srcClient : Bool) (failing : K → Bool)
    (hnd : (s.client_subscribers.getD name []).Nodup) :
    (PubSubSchedulerExtension.handle_message s name msg srcClient failing).err
      = none ∧
    clientMsgTargets
        (PubSubSchedulerExtension.handle_message s name msg srcClient failing).sends
      = (s.client_subscribers.getD name []).filter (fun c => !failing c) ∧
    workerMsgTargets
        (PubSubSchedulerExtension.handle_message s name msg srcClient failing).sends
      = (if srcClient then s.subscribers.getD name [] else []) ∧
    (srcClient = false →
      (PubSubSchedulerExtension.handle_message s name msg srcClient failing).state
        = applyRemovals name
            { s with client_subscribers := s.client_subscribers.touch name [] }
            ((s.client_subscribers.getD name []).filter (fun c => failing c))) ∧
    (srcClient = true →
      (PubSubSchedulerExtension.handle_message s name msg srcClient failing).state
        = { applyRemovals name
              { s with client_subscribers := s.client_subscribers.touch name [] }
              ((s.client_subscribers.getD name []).filter (fun c => failing c)) with
            subscribers :=
              (applyRemovals name
                { s with client_subscribers := s.client_subscribers.touch name [] }
                ((s.client_subscribers.getD name []).filter (fun c => failing c))).subscribers.touch
                name [] }) := by
have hsnap : (s.client_subscribers.touch name []).getD name []
    = s.client_subscribers.getD name [] := PyDict.getD_touch _ _ _ _
have hnd' : ((s.client_subscribers.touch name []).getD name []).Nodup := by
  rw [hsnap]
  exact hnd
have hsub : ∀ c ∈ (s.client_subscribers.touch name []).getD name [],
    c ∈ ({ s with client_subscribers := s.client_subscribers.touch name [] }
      : SchedState).client_subscribers.getD name [] := fun c hc => hc
obtain ⟨h1, h2, h3, h4, h5⟩ := PubSubSchedulerExtension.fanout_spec name msg
  failing ((s.client_subscribers.touch name []).getD name [])
  { s with client_subscribers := s.client_subscribers.touch name [] } hnd' hsub
have hfilterF : ((s.client_subscribers.touch name []).getD name []).filter
      (fun c => failing c)
    = (s.client_subscribers.getD name []).filter (fun c => failing c) := by
  rw [hsnap]
have hfilterT : ((s.client_subscribers.touch name []).getD name []).filter
      (fun c => !failing c)
    = (s.client_subscribers.getD name []).filter (fun c => !failing c) := by
  rw [hsnap]
rw [hfilterF] at h2
rw [hfilterT] at h3
cases srcClient with
| false =>
  refine ⟨?_, ?_, ?_, ?_, ?_⟩
  · simp [PubSubSchedulerExtension.handle_message, h1]
  · simp only [PubSubSchedulerExtension.handle_message, h1]
    simpa using h3
  · simp only [PubSubSchedulerExtension.handle_message, h1]
    simpa using h4
  · intro _
    simp only [PubSubSchedulerExtension.handle_message, h1]
    simpa using h2
  · intro hh
    exact absurd hh (by simp)
| true =>
  refine ⟨?_, ?_, ?_, ?_, ?_⟩
  · simp [PubSubSchedulerExtension.handle_message, h1]
  · simp only [PubSubSchedulerExtension.handle_message, h1]
    simp only [if_true, clientMsgTargets_append, clientMsgTargets_msgToWorker,
      List.append_nil]
    simpa using h3
  · simp only [PubSubSchedulerExtension.handle_message, h1]
    simp only [if_true, workerMsgTargets_append, workerMsgTargets_msgToWorker,
      List.nil_append]
    simp only [PyDict.getD_touch]
    have h4' := h4
    have h5' := h5
    rw [hsnap] at h4' h5'
    rw [h4']
    simpa using h5' name
  · intro hh
    exact absurd hh (by simp)
  · intro _
    simp only [PubSubSchedulerExtension.handle_message, h1]
    rw [h2]
    simp

theorem C7_handle_message_witness :
    (PubSubSchedulerExtension.handle_message
      ⟨⟨[]⟩, ⟨[("t", ["w1"])]⟩, ⟨[("t", ["c1", "c2"])]⟩⟩ "t" "m" true
      (fun c => c == "c1")).err = none :=
(C7_handle_message_spec ⟨⟨[]⟩, ⟨[("t", ["w1"])]⟩, ⟨[("t", ["c1", "c2"])]⟩⟩
  "t" "m" true (fun c => c == "c1") (by decide)).1

/-- C2 (counterexample): from the empty state, a single
`remove-publisher("t", "w")` event (a no-op removal) reaches a state in which
the topic `"t"` is present as a key of the scheduler's `publishers` table
while `publishers["t"]`, `subscribers["t"]` and `client_subscribers["t"]` are
all empty — the `defaultdict` membership test created the entry.  This
refutes the present-implies-nonempty direction of the claimed invariant. -/
theorem C2_minimality_counterexample :
    Reachable (PubSubSchedulerExtension.remove_publisher SchedState.empty
      "t" "w").state ∧
    (PubSubSchedulerExtension.remove_publisher SchedState.empty
      "t" "w").state.publishers.contains "t" = true ∧
    (PubSubSchedulerExtension.remove_publisher SchedState.empty
      "t" "w").state.publishers.getD "t" [] = [] ∧
    (PubSubSchedulerExtension.remove_publisher SchedState.empty
      "t" "w").state.subscribers.getD "t" [] = [] ∧
    (PubSubSchedulerExtension.remove_publisher SchedState.empty
      "t" "w").state.client_subscribers.getD "t" [] = [] :=
⟨Reachable.remPub SchedState.empty "t" "w" Reachable.empty,
 by decide, by decide, by decide, by decide⟩

/-- C2 (amended): in every reachable scheduler state, if one of
`publishers[t]`, `subscribers[t]`, `client_subscribers[t]` is non-empty then
`t` is present as a key of that table; the converse direction of the claimed
iff fails because operations on unknown topics create empty entries. -/
theorem C2_minimality_amended (s : SchedState) (_hs : Reachable s) (t : K) :
    (s.publishers.getD t [] ≠ [] → s.publishers.contains t = true) ∧
    (s.subscribers.getD t [] ≠ [] → s.subscribers.contains t = true) ∧
    (s.client_subscribers.getD t [] ≠ [] →
      s.client_subscribers.contains t = true) :=
⟨fun hh => PyDict.contains_of_getD_ne hh,
 fun hh => PyDict.contains_of_getD_ne hh,
 fun hh => PyDict.contains_of_getD_ne hh⟩

theorem C2_minimality_witness :
    (PubSubSchedulerExtension.add_publisher SchedState.empty
      "t" "w").state.publishers.contains "t" = true :=
(C2_minimality_amended _
  (Reachable.addPub SchedState.empty "t" "w" Reachable.empty) "t").1 (by decide)

theorem PyDict.modifyD_modifyD {α : Type} (d : PyDict α) (k : K) (dv : α)
    (f : α → α) (hf : f (f (d.getD k dv)) = f (d.getD k dv)) :
    (d.modifyD k dv f).modifyD k dv f = d.modifyD k dv f := by
unfold PyDict.modifyD
rw [PyDict.touch_of_contains _ (PyDict.contains_set_self _ _ _),
  PyDict.getD_set_self, hf, PyDict.set_set]

theorem contains_and_len (d : PyDict (List K)) (k : K) :
    (d.contains k && decide (0 < (d.getD k []).length))
      = decide (0 < (d.getD k []).length) := by
cases h : d.find? k
· simp [PyDict.contains, PyDict.getD, h]
· simp [PyDict.contains, PyDict.getD, h]

/-- C4: the client directory, on a message for a topic whose local subscriber
weak set has drained, emits the op `"pubsub-remove-subscribers"` — but
`PubSubSchedulerExtension.__init__` registers no stream or request handler
under that name (only the singular `"pubsub-remove-subscriber"`), so the
scheduler never handles the event and the claimed
`remove_subscriber(name, client=sender)` cleanup does not run. -/
theorem C4_remove_subscribers_unhandled :
    (PubSubClientExtension.handle_message [] "t" "m").2
      = [("pubsub-remove-subscribers", "t")] ∧
    "pubsub-remove-subscribers" ∉ schedulerStreamHandlerOps ∧
    "pubsub-remove-subscribers" ∉ schedulerRequestHandlerOps :=
⟨rfl, by decide, by decide⟩

/-- C3: `add_publisher(name, worker)` inserts `worker` into
`publishers[name]`, returns the snapshot mapping each address in
`subscribers[name]` to an empty info dict together with the
publish-scheduler boolean (true iff `client_subscribers[name]` is
non-empty), a second call with the same arguments leaves the state of the
first call unchanged, and the second call returns the then-current
snapshot. -/
theorem C3_add_publisher_spec (s : SchedState) (n w : K) :
    w ∈ (PubSubSchedulerExtension.add_publisher s n w).state.publishers.getD
      n [] ∧
    (PubSubSchedulerExtension.add_publisher s n w).subsSnapshot
      = (s.subscribers.getD n []).map (fun a => (a, ())) ∧
    (PubSubSchedulerExtension.add_publisher s n w).publishScheduler
      = decide (0 < (s.client_subscribers.getD n []).length) ∧
    (PubSubSchedulerExtension.add_publisher
        (PubSubSchedulerExtension.add_publisher s n w).state n w).state
      = (PubSubSchedulerExtension.add_publisher s n w).state ∧
    (PubSubSchedulerExtension.add_publisher
        (PubSubSchedulerExtension.add_publisher s n w).state n w).subsSnapshot
      = ((PubSubSchedulerExtension.add_publisher
          s n w).state.subscribers.getD n []).map (fun a => (a, ())) := by
refine ⟨?_, ?_, ?_, ?_, ?_⟩
· simp only [PubSubSchedulerExtension.add_publisher, PyDict.getD_modifyD_self]
  exact addElem_mem_self _ _
· simp only [PubSubSchedulerExtension.add_publisher]
  rw [PyDict.getD_touch]
· simp only [PubSubSchedulerExtension.add_publisher]
  exact contains_and_len _ _
· simp only [PubSubSchedulerExtension.add_publisher, SchedState.mk.injEq]
  refine ⟨?_, ?_, trivial⟩
  · refine PyDict.modifyD_modifyD _ _ _ _ ?_
    exact addElem_of_mem (addElem_mem_self _ _)
  · exact PyDict.touch_of_contains _ (PyDict.contains_touch_self _ _ _)
· simp only [PubSubSchedulerExtension.add_publisher]
  rw [PyDict.getD_touch]

/-- C8 (counterexample): processing `remove-publisher("t", "w")` from the
empty state leaves a state in which `publishers["t"]` and `subscribers["t"]`
are both empty and yet the `publishers` entry for `"t"` is present (the
absent-worker branch of `remove_publisher` skips the deletion check, and its
membership test creates the entry). -/
theorem C8_topic_deletion_counterexample :
    (remove_publisher SchedState.empty "t" "w").state.publishers.getD "t" []
      = [] ∧
    (remove_publisher SchedState.empty "t" "w").state.subscribers.getD "t" []
      = [] ∧
    (remove_publisher SchedState.empty "t" "w").state.publishers.contains "t"
      = true :=
⟨by decide, by decide, by decide⟩

/-- C8 (amended): after a `remove-subscriber` event that does not raise, or a
`remove-publisher` event whose worker was present in `publishers[name]`, if
`publishers[name]` and `subscribers[name]` are both empty then both entries
for `name` are deleted, regardless of `client_subscribers[name]` (which these
paths do not consult: the worker-removal paths leave it untouched).  A
`remove-publisher` for an absent worker skips the deletion check. -/
theorem C8_topic_deletion_amended :
    (∀ (s : SchedState) (n : K) (wo co : Option K),
      (remove_subscriber s n wo co).err = none →
      (remove_subscriber s n wo co).state.subscribers.getD n [] = [] →
      (remove_subscriber s n wo co).state.publishers.getD n [] = [] →
      (remove_subscriber s n wo co).state.subscribers.contains n = false ∧
      (remove_subscriber s n wo co).state.publishers.contains n = false) ∧
    (∀ (s : SchedState) (n w : K), w ∈ s.publishers.getD n [] →
      ((remove_publisher s n w).state.subscribers.getD n [] = [] →
       (remove_publisher s n w).state.publishers.getD n [] = [] →
       (remove_publisher s n w).state.subscribers.contains n = false ∧
       (remove_publisher s n w).state.publishers.contains n = false) ∧
      (remove_publisher s n w).state.client_subscribers
        = s.client_subscribers) ∧
    (∀ (s : SchedState) (n : K) (wo : Option K),
      (remove_subscriber s n wo none).state.client_subscribers
        = s.client_subscribers) := by
refine ⟨?_, ?_, ?_⟩
· intro s n wo co
  match wo with
  | some w =>
    simp only [remove_subscriber]
    split
    · intro _ h2 h3
      exact rtie_post _ _ _ h2 h3
    · intro he
      simp at he
  | none =>
    match co with
    | some c =>
      simp only [remove_subscriber]
      split
      · split
        · intro _ h2 h3
          exact rtie_post _ _ _ h2 h3
        · intro _ h2 h3
          exact rtie_post _ _ _ h2 h3
      · intro he
        simp at he
    | none =>
      intro _ h2 h3
      exact rtie_post _ _ _ h2 h3
· intro s n w hw
  have hw' : w ∈ (s.publishers.touch n []).getD n [] := by
    rw [PyDict.getD_touch]
    exact hw
  simp only [remove_publisher, hw', if_pos]
  split
  · exact ⟨fun _ _ => ⟨PyDict.contains_erase_self _ _,
      PyDict.contains_erase_self _ _⟩, rfl⟩
  · rename_i hcond
    refine ⟨fun h2 h3 => ?_, rfl⟩
    rw [h2, h3] at hcond
    simp at hcond
· intro s n wo
  match wo with
  | some w =>
    simp only [remove_subscriber]
    split
    · rw [rtie_cs]
    · rfl
  | none =>
    simp only [remove_subscriber]
    rw [rtie_cs]

theorem C8_topic_deletion_witness :
    (remove_publisher (add_publisher SchedState.empty "t" "w").state
      "t" "w").state.publishers.contains "t" = false :=
((C8_topic_deletion_amended.2.1 (add_publisher SchedState.empty "t" "w").state
  "t" "w" (by decide)).1 (by decide) (by decide)).2

theorem delAddr_ok (a : K) :
    ∀ l : List PubEntry, (∀ p ∈ l, a ∈ p.subscribers) →
    (PubSubWorkerExtension.delAddr l a).2 = none := by
intro l
induction l with
| nil => intro _; rfl
| cons p ps ih =>
  intro hall
  have hp : a ∈ p.subscribers := hall p (List.mem_cons_self _ _)
  simp only [PubSubWorkerExtension.delAddr, hp, if_pos]
  exact ih (fun q hq => hall q (List.mem_cons_of_mem _ hq))

theorem delAddr_err (a : K) :
    ∀ l : List PubEntry, (∃ p ∈ l, a ∉ p.subscribers) →
    (PubSubWorkerExtension.delAddr l a).2 = some PyErr.keyError := by
intro l
induction l with
| nil =>
  intro hex
  obtain ⟨p, hp, _⟩ := hex
  cases hp
| cons p ps ih =>
  intro hex
  by_cases hp : a ∈ p.subscribers
  · simp only [PubSubWorkerExtension.delAddr, hp, if_pos]
    refine ih ?_
    obtain ⟨q, hq, hqa⟩ := hex
    rcases List.mem_cons.mp hq with hq1 | hq2
    · exact absurd (hq1 ▸ hp) hqa
    · exact ⟨q, hq2, hqa⟩
  · simp [PubSubWorkerExtension.delAddr, hp]

/-- C1 (counterexample): at the scheduler, `remove_subscriber` for a worker
that is not subscribed raises `KeyError` (Python `set.remove`), and even the
guarded `remove_publisher` on an unknown topic is not a pure no-op: its
membership test creates an empty `publishers` entry, changing the state. -/
theorem C1_mutations_counterexample :
    (remove_subscriber SchedState.empty "t" (some "w") none).err
      = some PyErr.keyError ∧
    (remove_publisher SchedState.empty "t" "w").state ≠ SchedState.empty :=
⟨by decide, by decide⟩

/-- C1 (amended): `add_publisher` and `add_subscriber` never raise;
`remove_publisher` never raises and, for an absent `(name, worker)`, changes
no set contents and sends nothing (though the `defaultdict` membership test
may create an empty `publishers[name]` entry); scheduler `remove_subscriber`
raises `KeyError` when the worker/client is absent, leaving all set contents
unchanged; worker `remove_subscriber` raises `KeyError` exactly when some
local publisher lacks the address (publishers before the failing one stay
mutated), and succeeds when every local publisher has it. -/
theorem C1_mutations_amended :
    (∀ (s : SchedState) (n w : K), (add_publisher s n w).err = none) ∧
    (∀ (s : SchedState) (n : K) (wo co : Option K),
      (add_subscriber s n wo co).err = none) ∧
    (∀ (s : SchedState) (n w : K), (remove_publisher s n w).err = none) ∧
    (∀ (s : SchedState) (n w : K), w ∉ s.publishers.getD n [] →
      (∀ k, (remove_publisher s n w).state.publishers.getD k []
        = s.publishers.getD k []) ∧
      (remove_publisher s n w).state.subscribers = s.subscribers ∧
      (remove_publisher s n w).state.client_subscribers
        = s.client_subscribers ∧
      (remove_publisher s n w).sends = []) ∧
    (∀ (s : SchedState) (n w : K), w ∉ s.subscribers.getD n [] →
      (remove_subscriber s n (some w) none).err = some PyErr.keyError ∧
      (∀ k, (remove_subscriber s n (some w) none).state.subscribers.getD k []
        = s.subscribers.getD k []) ∧
      (remove_subscriber s n (some w) none).state.publishers = s.publishers ∧
      (remove_subscriber s n (some w) none).state.client_subscribers
        = s.client_subscribers) ∧
    (∀ (s : SchedState) (n c : K), c ∉ s.client_subscribers.getD n [] →
      (remove_subscriber s n none (some c)).err = some PyErr.keyError ∧
      (∀ k, (remove_subscriber s n none
          (some c)).state.client_subscribers.getD k []
        = s.client_subscribers.getD k []) ∧
      (remove_subscriber s n none (some c)).state.publishers = s.publishers ∧
      (remove_subscriber s n none (some c)).state.subscribers
        = s.subscribers) ∧
    (∀ (pubs : PyDict (List PubEntry)) (n a : K),
      (∀ p ∈ pubs.getD n [], a ∈ p.subscribers) →
      (PubSubWorkerExtension.remove_subscriber pubs n a).2 = none) ∧
    (∀ (pubs : PyDict (List PubEntry)) (n a : K),
      (∃ p ∈ pubs.getD n [], a ∉ p.subscribers) →
      (PubSubWorkerExtension.remove_subscriber pubs n a).2
        = some PyErr.keyError) := by
refine ⟨?_, ?_, ?_, ?_, ?_, ?_, ?_, ?_⟩
· intro s n w
  rfl
· intro s n wo co
  cases wo
  · cases co <;> rfl
  · rfl
· intro s n w
  simp only [remove_publisher]
  split
  · split <;> rfl
  · rfl
· intro s n w hw
  have hw' : w ∉ (s.publishers.touch n []).getD n [] := by
    rw [PyDict.getD_touch]
    exact hw
  simp only [remove_publisher, hw', if_neg]
  exact ⟨fun k => PyDict.getD_touch _ _ _ _, rfl, rfl, rfl⟩
· intro s n w hw
  have hw' : w ∉ (s.subscribers.touch n []).getD n [] := by
    rw [PyDict.getD_touch]
    exact hw
  simp only [remove_subscriber, hw', if_neg]
  exact ⟨rfl, fun k => PyDict.getD_touch _ _ _ _, rfl, rfl⟩
· intro s n c hc
  have hc' : c ∉ (s.client_subscribers.touch n []).getD n [] := by
    rw [PyDict.getD_touch]
    exact hc
  simp only [remove_subscriber, hc', if_neg]
  exact ⟨rfl, fun k => PyDict.getD_touch _ _ _ _, rfl, rfl⟩
· intro pubs n a hall
  exact delAddr_ok a _ hall
· intro pubs n a hex
  exact delAddr_err a _ hex

theorem C1_mutations_witness :
    (remove_subscriber SchedState.empty "t2" (some "w2") none).err
      = some PyErr.keyError :=
(C1_mutations_amended.2.2.2.2.1 SchedState.empty "t2" "w2" (by decide)).1

/-! ### Publisher endpoint -/

theorem Pub.put_unstarted {p : PubSt} (h : p.started = false) (m : K) :
    Pub._put p m = ({ p with buffer := p.buffer ++ [m] }, []) := by
unfold Pub._put
rw [h]
simp

theorem Pub.put_started_state {p : PubSt} (h : p.started = true) (m : K) :
    (Pub._put p m).1 = p := by
unfold Pub._put
rw [h]
simp only [Bool.true_eq_false, if_false]
cases hh : p.host <;> simp

theorem Pub.putMany_unstarted {p : PubSt} (h : p.started = false)
    (msgs : List K) :
    Pub.putMany p msgs = ({ p with buffer := p.buffer ++ msgs }, []) := by
induction msgs generalizing p with
| nil => simp [Pub.putMany]
| cons m ms ih =>
  simp only [Pub.putMany]
  rw [Pub.put_unstarted h]
  rw [ih (p := { p with buffer := p.buffer ++ [m] }) h]
  simp

theorem Pub.putMany_started {p : PubSt} (h : p.started = true)
    (msgs : List K) :
    Pub.putMany p msgs
      = (p, msgs.flatMap (fun m => (Pub._put p m).2)) := by
induction msgs with
| nil => simp [Pub.putMany]
| cons m ms ih =>
  simp only [Pub.putMany]
  rw [Pub.put_started_state h, ih]
  simp

/-- C5: on a worker-hosted publisher, every `put` made before the
registration round-trip completes appends the message to the pending buffer
and sends nothing; when `_start` completes, `_started` is true, the pending
buffer is empty, and the buffered messages are re-emitted in the order they
were put (each as an ordinary started `_put`), after the
`pubsub_add_publisher` call. -/
theorem C5_preregistration_buffering (nm : K) (msgs subs : List K)
    (flag : Bool) :
    (Pub.putMany (Pub.init Host.worker nm) msgs).1.buffer = msgs ∧
    (Pub.putMany (Pub.init Host.worker nm) msgs).2 = [] ∧
    (Pub._start (Pub.putMany (Pub.init Host.worker nm) msgs).1
      subs flag).1.started = true ∧
    (Pub._start (Pub.putMany (Pub.init Host.worker nm) msgs).1
      subs flag).1.buffer = [] ∧
    (Pub._start (Pub.putMany (Pub.init Host.worker nm) msgs).1 subs flag).2
      = PubSend.rpcAddPublisher nm ::
          msgs.flatMap (fun m =>
            (Pub._put
              (Pub._start (Pub.putMany (Pub.init Host.worker nm) msgs).1
                subs flag).1 m).2) := by
have h1 : Pub.putMany (Pub.init Host.worker nm) msgs
    = ({ host := Host.worker, name := nm, started := false, buffer := msgs,
         subscribers := [], pts := false }, []) := by
  rw [Pub.putMany_unstarted rfl]
  simp [Pub.init]
rw [h1]
simp only [Pub._start]
rw [Pub.putMany_started rfl]
refine ⟨?_, ?_, ?_, ?_, ?_⟩ <;> first
| rfl
| trivial

theorem count_direct_map (nm m a : K) :
    ∀ subs : List K, subs.Nodup →
    ((subs.map (fun b => PubSend.direct b nm m)).count
      (PubSend.direct a nm m))
      = if a ∈ subs then 1 else 0 := by
intro subs
induction subs with
| nil => intro _; simp
| cons b bs ih =>
  intro hnd
  obtain ⟨hb, hnd'⟩ := List.nodup_cons.mp hnd
  by_cases hab : a = b
  · subst hab
    simp [List.count_cons, ih hnd', hb]
  · simp [List.count_cons, ih hnd', hab, Ne.symm hab]

theorem count_sched_map (nm m : K) (subs : List K) :
    ((subs.map (fun b => PubSend.direct b nm m)).count
      (PubSend.sched nm m)) = 0 := by
induction subs with
| nil => rfl
| cons b bs ih => simp [List.count_cons, ih]

/-- C6: on a started publisher, one `_put(msg)` sends the pubsub-msg event:
worker-hosted, exactly once on `Direct` to each address in
`self.subscribers`, plus exactly once on the scheduler stream iff
`publish_to_scheduler[name]` is true, and nothing else; client-hosted,
exactly once on the scheduler stream and on no other channel.  The
publisher's own state is unchanged. -/
theorem C6_put_fanout (p : PubSt) (msg : K) (hst : p.started = true) :
    (p.host = Host.worker → p.subscribers.Nodup →
      (Pub._put p msg).1 = p ∧
      (∀ a, ((Pub._put p msg).2.count (PubSend.direct a p.name msg))
        = if a ∈ p.subscribers then 1 else 0) ∧
      ((Pub._put p msg).2.count (PubSend.sched p.name msg)
        = if p.pts then 1 else 0) ∧
      (∀ sd ∈ (Pub._put p msg).2,
        (∃ a ∈ p.subscribers, sd = PubSend.direct a p.name msg) ∨
        sd = PubSend.sched p.name msg)) ∧
    (p.host = Host.client →
      Pub._put p msg = (p, [PubSend.sched p.name msg])) := by
constructor
· intro hh hnd
  have hput : Pub._put p msg
      = (p, p.subscribers.map (fun a => PubSend.direct a p.name msg)
          ++ (if p.pts then [PubSend.sched p.name msg] else [])) := by
    unfold Pub._put
    rw [hst, hh]
    simp
  rw [hput]
  refine ⟨rfl, ?_, ?_, ?_⟩
  · intro a
    rw [List.count_append, count_direct_map _ _ _ _ hnd]
    cases hp : p.pts <;> simp [List.count_cons]
  · rw [List.count_append, count_sched_map]
    cases hp : p.pts <;> simp [List.count_cons]
  · intro sd hsd
    rcases List.mem_append.mp hsd with hmap | hite
    · obtain ⟨a, ha, rfl⟩ := List.mem_map.mp hmap
      exact Or.inl ⟨a, ha, rfl⟩
    · cases hp : p.pts
      · rw [hp] at hite
        cases hite
      · rw [hp] at hite
        rcases List.mem_singleton.mp hite with rfl
        exact Or.inr rfl
· intro hh
  unfold Pub._put
  rw [hst, hh]
  simp

theorem C6_put_fanout_witness :
    (Pub._put
      { host := Host.worker, name := "T", started := true, buffer := [],
        subscribers := ["a", "b"], pts := true } "m").2.count
      (PubSend.sched "T" "m") = 1 := by
have h := (C6_put_fanout
  { host := Host.worker, name := "T", started := true, buffer := [],
    subscribers := ["a", "b"], pts := true } "m" rfl).1 rfl (by decide)
simpa using h.2.2.1

theorem Pub.put_client {p : PubSt} (h : p.host = Host.client) (m : K) :
    (Pub._put p m).1.host = Host.client ∧
    (Pub._put p m).1.subscribers = p.subscribers ∧
    (Pub._put p m).1.name = p.name ∧
    (Pub._put p m).1.started = p.started ∧
    (∀ sd ∈ (Pub._put p m).2, ∃ m', sd = PubSend.sched p.name m') := by
obtain ⟨h0, nm0, st0, buf0, subs0, pts0⟩ := p
subst h
cases st0 <;> simp [Pub._put]

theorem Pub.putMany_client {p : PubSt} (h : p.host = Host.client)
    (msgs : List K) :
    (Pub.putMany p msgs).1.host = Host.client ∧
    (Pub.putMany p msgs).1.subscribers = p.subscribers ∧
    (Pub.putMany p msgs).1.name = p.name ∧
    (Pub.putMany p msgs).1.started = p.started ∧
    (∀ sd ∈ (Pub.putMany p msgs).2, ∃ m', sd = PubSend.sched p.name m') := by
induction msgs generalizing p with
| nil => simp [Pub.putMany, h]
| cons m ms ih =>
  obtain ⟨hh, hsub, hnm, hst, hsd⟩ := Pub.put_client h m
  obtain ⟨ih1, ih2, ih3, ih4, ih5⟩ := ih hh
  simp only [Pub.putMany]
  refine ⟨ih1, ?_, ?_, ?_, ?_⟩
  · rw [ih2, hsub]
  · rw [ih3, hnm]
  · rw [ih4, hst]
  · intro sd hmem
    rcases List.mem_append.mp hmem with h1 | h2
    · exact hsd sd h1
    · obtain ⟨m', hm'⟩ := ih5 sd h2
      refine ⟨m', ?_⟩
      rw [hm', hnm]

theorem Pub.start_client {p : PubSt} (h : p.host = Host.client)
    (rs : List K) (rf : Bool) :
    (Pub._start p rs rf).1.host = Host.client ∧
    (Pub._start p rs rf).1.subscribers = p.subscribers ∧
    (Pub._start p rs rf).1.name = p.name ∧
    (Pub._start p rs rf).1.started = true ∧
    (∀ sd ∈ (Pub._start p rs rf).2, ∃ m', sd = PubSend.sched p.name m') := by
obtain ⟨h0, nm0, st0, buf0, subs0, pts0⟩ := p
subst h
simp only [Pub._start]
exact Pub.putMany_client rfl buf0

theorem Pub.step_client {p : PubSt} (h : p.host = Host.client) (o : Pub.Op) :
    (Pub.step p o).1.host = Host.client ∧
    (Pub.step p o).1.subscribers = p.subscribers ∧
    (Pub.step p o).1.name = p.name ∧
    (∀ sd ∈ (Pub.step p o).2, ∃ m', sd = PubSend.sched p.name m') := by
cases o with
| start rs rf =>
  obtain ⟨a1, a2, a3, _, a5⟩ := Pub.start_client h rs rf
  exact ⟨a1, a2, a3, a5⟩
| put m =>
  obtain ⟨a1, a2, a3, _, a5⟩ := Pub.put_client h m
  exact ⟨a1, a2, a3, a5⟩

theorem Pub.run_client {p : PubSt} (h : p.host = Host.client)
    (ops : List Pub.Op) :
    (Pub.run p ops).1.host = Host.client ∧
    (Pub.run p ops).1.subscribers = p.subscribers ∧
    (Pub.run p ops).1.name = p.name ∧
    (∀ sd ∈ (Pub.run p ops).2, ∃ m', sd = PubSend.sched p.name m') := by
induction ops generalizing p with
| nil => simp [Pub.run, h]
| cons o os ih =>
  obtain ⟨hh, hsub, hnm, hsd⟩ := Pub.step_client h o
  obtain ⟨ih1, ih2, ih3, ih4⟩ := ih hh
  simp only [Pub.run]
  refine ⟨ih1, ?_, ?_, ?_⟩
  · rw [ih2, hsub]
  · rw [ih3, hnm]
  · intro sd hmem
    rcases List.mem_append.mp hmem with h1 | h2
    · exact hsd sd h1
    · obtain ⟨m', hm'⟩ := ih4 sd h2
      refine ⟨m', ?_⟩
      rw [hm', hnm]

/-- C10: on a client-hosted publisher, `_start` performs no scheduler call
(the only sends any operation produces are scheduler-stream pubsub-msg
events — never a `pubsub_add_publisher` RPC and never a `Direct` send) and
sets `_started` to true, no operation ever adds to its `subscribers`
mapping, and from construction the `subscribers` dict stays empty over every
sequence of operations, so every emitted message leaves the host only on
the scheduler stream. -/
theorem C10_client_pub_spec :
    (∀ (p : PubSt) (rs : List K) (rf : Bool), p.host = Host.client →
      (Pub._start p rs rf).1.started = true ∧
      (Pub._start p rs rf).1.subscribers = p.subscribers ∧
      (∀ sd ∈ (Pub._start p rs rf).2, ∃ m, sd = PubSend.sched p.name m)) ∧
    (∀ (nm : K) (ops : List Pub.Op),
      (Pub.run (Pub.init Host.client nm) ops).1.subscribers = [] ∧
      (∀ sd ∈ (Pub.run (Pub.init Host.client nm) ops).2,
        ∃ m, sd = PubSend.sched nm m)) := by
constructor
· intro p rs rf h
  obtain ⟨_, a2, a3, a4, a5⟩ := Pub.start_client h rs rf
  exact ⟨a4, a2, a5⟩
· intro nm ops
  obtain ⟨_, b2, b3, b4⟩ := Pub.run_client (p := Pub.init Host.client nm)
    rfl ops
  refine ⟨b2, ?_⟩
  intro sd hmem
  obtain ⟨m, hm⟩ := b4 sd hmem
  exact ⟨m, hm⟩

theorem C10_client_pub_witness :
    (Pub._start (Pub.init Host.client "T") [] false).1.started = true :=
(C10_client_pub_spec.1 (Pub.init Host.client "T") [] false rfl).1

/-! ### Subscriber endpoint -/

theorem Sub.getLoop_timeout (t start : Int) :
    ∀ (wakes : List (Int × List K)) (now : Int),
    (∀ q ∈ wakes, q.2 = ([] : List K)) →
    ((t - (now - start) < 0) ∨ ∃ q ∈ wakes, start + t < q.1) →
    Sub.getLoop (some t) start now [] wakes = GetOutcome.timedOut := by
intro wakes
induction wakes with
| nil =>
  intro now _ hd
  rcases hd with h1 | h2
  · simp [Sub.getLoop, h1]
  · obtain ⟨q, hq, _⟩ := h2
    cases hq
| cons q ws ih =>
  obtain ⟨t', b'⟩ := q
  intro now hempty hd
  have hb' : b' = [] := hempty (t', b') (List.mem_cons_self _ _)
  subst hb'
  by_cases h1 : t - (now - start) < 0
  · simp [Sub.getLoop, h1]
  · by_cases h2 : start + t < t'
    · simp [Sub.getLoop, h1, h2]
    · simp only [Sub.getLoop]
      rw [if_neg h1, if_neg h2]
      refine ih t' (fun q hq => hempty q (List.mem_cons_of_mem _ hq)) ?_
      rcases hd with hc1 | hc2
      · exact absurd hc1 h1
      · obtain ⟨q', hq', hlt⟩ := hc2
        rcases List.mem_cons.mp hq' with hq1 | hq2
        · rw [hq1] at hlt
          exact absurd hlt h2
        · exact Or.inr ⟨q', hq2, hlt⟩

theorem Sub.getLoop_none_no_timeout (start : Int) :
    ∀ (wakes : List (Int × List K)) (now : Int) (buffer : List K),
    Sub.getLoop none start now buffer wakes ≠ GetOutcome.timedOut := by
intro wakes
induction wakes with
| nil =>
  intro now buffer
  cases buffer <;> simp [Sub.getLoop]
| cons q ws ih =>
  obtain ⟨t', b'⟩ := q
  intro now buffer
  cases buffer with
  | nil =>
    simp only [Sub.getLoop]
    exact ih t' b'
  | cons m rest => simp [Sub.getLoop]

/-- C9: `Sub._get(timeout)`: when the buffer is non-empty it removes and
returns the head (oldest) element, leaving the tail, for any timeout and any
wait trace; when the buffer is empty and every wake observes an empty buffer
and the wait trace runs past the deadline `start + timeout`, it raises
`TimeoutError`; a null timeout never produces a timeout, whatever the trace. -/
theorem C9_sub_get_spec :
    (∀ (timeout : Option Int) (start : Int) (m : K) (rest : List K)
      (wakes : List (Int × List K)),
      Sub._get timeout start (m :: rest) wakes = GetOutcome.got m rest) ∧
    (∀ (t start : Int) (wakes : List (Int × List K)),
      (∀ q ∈ wakes, q.2 = ([] : List K)) →
      (∃ q ∈ wakes, start + t < q.1) →
      Sub._get (some t) start [] wakes = GetOutcome.timedOut) ∧
    (∀ (start : Int) (buffer : List K) (wakes : List (Int × List K)),
      Sub._get none start buffer wakes ≠ GetOutcome.timedOut) := by
refine ⟨?_, ?_, ?_⟩
· intro timeout start m rest wakes
  cases wakes <;> simp [Sub._get, Sub.getLoop]
· intro t start wakes hempty hex
  exact Sub.getLoop_timeout t start wakes start hempty (Or.inr hex)
· intro start buffer wakes
  exact Sub.getLoop_none_no_timeout start wakes start buffer

theorem C9_sub_get_witness :
    Sub._get (some 5) 0 [] [(10, [])] = GetOutcome.timedOut ∧
    Sub._get (some 5) 0 ["x", "y"] [] = GetOutcome.got "x" ["y"] :=
⟨C9_sub_get_spec.2.1 5 0 [(10, [])] (by decide) (by decide),
 C9_sub_get_spec.1 (some 5) 0 "x" ["y"] []⟩
